import Mathlib

/-!
Verification of the Feature Drift Analytics Engine of the ML-dashboard
repository (`src/dashboard/server/server.py`, functions `_safe`,
`_series_stats` and `get_analytics_stats`).

Modelling conventions, used throughout this file:

* Numeric values are modelled in exact rational arithmetic (`ℚ`).  Binary
  floating-point representation error is not modelled; decimal rounding
  performed by Python's `round` (round-half-to-even) is modelled exactly.
* Timestamps are modelled as rational numbers of seconds since an epoch.
  A missing or unparseable timestamp (pandas `NaT`, produced by
  `pd.to_datetime(..., errors='coerce')`) is modelled as `none`; as in
  pandas, every ordered comparison against `NaT` is false.
* Transcendental library operations that have no exact rational value are
  modelled as explicit functional parameters, collected in `FloatOracles`:
  `sqrt` stands for the square root used by `pandas.Series.std`/`skew`,
  `log` for `numpy.log` in the PSI computation, and `asympSf` for the
  asymptotic two-sample Kolmogorov-Smirnov survival function that
  `scipy.stats.ks_2samp` uses when a sample exceeds 10000 points.
  Theorems quantify over these parameters, adding only hypotheses that the
  real functions satisfy (for example `sf 0 = 1`); witnesses instantiate
  them with concrete rational stand-ins.
-/

namespace MLDash

/-- Round a rational to the nearest integer, ties to the even integer.
This is the rounding used by Python's builtin `round` and by `np.round`. -/
def roundHE (q : ℚ) : ℤ :=
  let f : ℤ := ⌊q⌋
  let r : ℚ := q - f
  if r < 1/2 then f
  else if 1/2 < r then f + 1
  else if f % 2 = 0 then f else f + 1

/-- Model of Python's `round(x, k)`: round to `k` decimal places,
ties to even. -/
def roundTo (k : ℕ) (q : ℚ) : ℚ :=
  (roundHE (q * 10 ^ k) : ℚ) / 10 ^ k

/-- Smallest element of a list of rationals (`0` on the empty list, which
the engine never queries).  Models `pandas`/`numpy` `min` on non-empty
data. -/
def listMin : List ℚ → ℚ
  | [] => 0
  | x :: xs => xs.foldl min x

/-- Largest element of a list of rationals (`0` on the empty list).
Models `pandas`/`numpy` `max` on non-empty data. -/
def listMax : List ℚ → ℚ
  | [] => 0
  | x :: xs => xs.foldl max x

/-- One row of `patient_features.parquet`, restricted to what the
analytics engine reads for one feature column: the `event_timestamp`
(`none` = `NaT`), the feature value (`none` = `NaN`, removed by
`dropna()`), and the `Outcome` label used by the category filter. -/
structure Rec where
  ts : Option ℚ
  value : Option ℚ
  outcome : Option ℤ
  deriving DecidableEq, Repr

/-- The split-rule selector of `get_analytics_stats`: either an explicit
`cutoff` request parameter was supplied (its parsed date, in seconds), or
not (`auto`), in which case the earliest-batch / positional fallbacks
apply. -/
inductive SplitMode where
  | cutoff (c : ℚ)
  | auto
  deriving DecidableEq, Repr

/-- The category filter: `df[df['Outcome'] == int(cat_filter)]` for a
filter that parses as an integer; an absent or unparseable filter leaves
the dataset unchanged (the `except` branch is a no-op `pass`). -/
def categoryFilter (df : List Rec) : Option ℤ → List Rec
  | none => df
  | some c => df.filter (fun r => r.outcome = some c)

/-- Does the record's timestamp satisfy `ts <= t`?  `NaT <= t` is false,
as in pandas. -/
def tsLE (r : Rec) (t : ℚ) : Bool :=
  match r.ts with
  | some u => u ≤ t
  | none => false

/-- Does the record's timestamp satisfy `ts > t`?  `NaT > t` is false,
as in pandas. -/
def tsGT (r : Rec) (t : ℚ) : Bool :=
  match r.ts with
  | some u => t < u
  | none => false

/-- All valid (non-`NaT`) timestamps of the dataset, in row order:
`df['event_timestamp'].dropna()`. -/
def validTs (df : List Rec) : List ℚ :=
  df.filterMap Rec.ts

/-- The distinct valid timestamps:
`df['event_timestamp'].dropna().unique()` (only its cardinality and
minimum are used by the engine). -/
def uniqueTs (df : List Rec) : List ℚ :=
  (validTs df).dedup

/-- The reference/comparison split of `get_analytics_stats`, on rows
paired with their positional index.  With a cutoff, reference holds the
rows with `ts <= cutoff + 1 day - 1 second` and comparison those strictly
after; with no cutoff and more than one distinct timestamp, the rows at
the earliest timestamp form the reference; otherwise the first
`int(len(df) * 0.8)` rows (in row order) form the reference. -/
def partition (df : List Rec) : SplitMode → List (ℕ × Rec) × List (ℕ × Rec)
  | .cutoff c =>
    let cEnd := c + 86400 - 1
    ((df.enum.filter fun p => tsLE p.2 cEnd, df.enum.filter fun p => tsGT p.2 cEnd))
  | .auto =>
    if 1 < (uniqueTs df).length then
      let t0 := listMin (validTs df)
      ((df.enum.filter fun p => tsLE p.2 t0, df.enum.filter fun p => tsGT p.2 t0))
    else
      let k := 4 * df.length / 5
      (df.enum.take k, df.enum.drop k)

/-- Valid feature values of the reference partition:
`before[col].dropna()`. -/
def beforeVals (df : List Rec) (m : SplitMode) : List ℚ :=
  (partition df m).1.filterMap (fun p => p.2.value)

/-- Valid feature values of the comparison partition:
`after[col].dropna()`. -/
def afterVals (df : List Rec) (m : SplitMode) : List ℚ :=
  (partition df m).2.filterMap (fun p => p.2.value)

/-- Valid feature values of the whole (filtered) dataset:
`df[col].dropna()`. -/
def allValsOf (df : List Rec) : List ℚ :=
  df.filterMap Rec.value

/-- The transcendental library operations the engine calls, modelled as
parameters (see the file header).  `sqrt` models the float square root
(`x ** 0.5`), `log` models `np.log`, and `asympSf d en` models the
asymptotic two-sample KS survival function `kstwo.sf(d, round(en))`. -/
structure FloatOracles where
  sqrt : ℚ → ℚ
  log : ℚ → ℚ
  asympSf : ℚ → ℤ → ℚ

/-- Exact rational square root when one exists (numerator and denominator
both perfect squares); used only to instantiate the `sqrt` oracle in
witnesses, at inputs where the float square root is exact. -/
def qsqrt (q : ℚ) : ℚ :=
  (Int.sqrt q.num : ℚ) / (Nat.sqrt q.den : ℚ)

/-- Concrete oracle instance for witnesses.  `sqrt` is the exact rational
square root (witness inputs only take it at perfect squares), `log` is an
arbitrary stand-in (no witnessed value depends on it), and `asympSf` has
the sole property of the real survival function that any theorem here
uses, `sf 0 = 1`. -/
def qOracles : FloatOracles :=
  { sqrt := qsqrt, log := fun _ => 0, asympSf := fun d _ => if d = 0 then 1 else 0 }

/-- Ascending sort of the values, as used by quantile computation
(modelled by a stable insertion sort; only the sorted order matters). -/
def sortedVals (s : List ℚ) : List ℚ :=
  List.insertionSort (· ≤ ·) s

/-- Linear-interpolation quantile of pandas (`Series.quantile`, default
`interpolation='linear'`, also the semantics of `Series.median`): the
virtual position is `p * (n - 1)`; the result interpolates between the
order statistics below and above that position. -/
def quantile (s : List ℚ) (p : ℚ) : ℚ :=
  let n := s.length
  let h : ℚ := p * ((n : ℚ) - 1)
  let i : ℕ := (⌊h⌋).toNat
  let lo := (sortedVals s).getD i 0
  let hi := (sortedVals s).getD (min (i + 1) (n - 1)) 0
  lo + (hi - lo) * (h - (i : ℚ))

/-- Mean of the values (`Series.mean`); only queried on non-empty data. -/
def meanQ (s : List ℚ) : ℚ :=
  s.sum / (s.length : ℚ)

/-- Sum of squared deviations from the mean. -/
def sumSqDev (s : List ℚ) : ℚ :=
  (s.map (fun x => (x - meanQ s) ^ 2)).sum

/-- Central moment of order `k` (denominator `n`), as used by pandas
`nanskew`/`nankurt`. -/
def centralMoment (s : List ℚ) (k : ℕ) : ℚ :=
  (s.map (fun x => (x - meanQ s) ^ k)).sum / (s.length : ℚ)

/-- Pandas `Series.skew` (adjusted Fisher-Pearson coefficient,
`nanops.nanskew`): `(n * sqrt(n-1) / (n-2)) * m3 / m2^1.5`, with the
whole expression forced to `0` when `m2 = 0`.  Only evaluated by the
engine when `count > 2`. -/
def skewQ (sqrt : ℚ → ℚ) (s : List ℚ) : ℚ :=
  let n : ℚ := s.length
  let m2 := centralMoment s 2
  let m3 := centralMoment s 3
  if m2 = 0 then 0
  else (n * sqrt (n - 1) / (n - 2)) * (m3 / (m2 * sqrt m2))

/-- Pandas `Series.kurtosis` (excess kurtosis, `nanops.nankurt`):
`n(n+1)(n-1) m4 / ((n-2)(n-3) m2^2) - 3 (n-1)^2 / ((n-2)(n-3))`, forced
to `0` when the denominator vanishes.  Only evaluated when
`count > 3`. -/
def kurtQ (s : List ℚ) : ℚ :=
  let n : ℚ := s.length
  let m2 := centralMoment s 2
  let m4 := centralMoment s 4
  if m2 = 0 then 0
  else n * (n + 1) * (n - 1) * m4 / ((n - 2) * (n - 3) * m2 ^ 2)
    - 3 * (n - 1) ^ 2 / ((n - 2) * (n - 3))

/-- The `ColumnStatistics` value object built by `_series_stats`.  In the
exact-rational model the `_safe` wrapper applied to each field by the
source is the identity (no `NaN`/`Infinity` arises; the sanitization
layer itself is verified separately on the JSON model, claims about
`_safe`). -/
structure SeriesStats where
  count : ℕ
  mean : ℚ
  std : ℚ
  minv : ℚ
  maxv : ℚ
  sum : ℚ
  median : ℚ
  q1 : ℚ
  q3 : ℚ
  iqr : ℚ
  whisker_lo : ℚ
  whisker_hi : ℚ
  skew : Option ℚ
  kurtosis : Option ℚ
  z_mean : ℚ
  deriving DecidableEq, Repr

/-- Model of `_series_stats(s)`: `None` on an empty series; otherwise the full
statistics block.  `std` is the sample standard deviation (denominator
`n - 1`) for `count > 1` and the literal `0.0` for a singleton; `skew`
and `kurtosis` are only computed for `count > 2` resp. `count > 3`;
`z_mean` is initialized to `0.0`. -/
def _series_stats (sqrt : ℚ → ℚ) (s : List ℚ) : Option SeriesStats :=
  if s.length = 0 then none
  else
    let q1 := quantile s (1/4)
    let q3 := quantile s (3/4)
    let iqr := q3 - q1
    some
      { count := s.length
        mean := meanQ s
        std := if 1 < s.length then sqrt (sumSqDev s / ((s.length : ℚ) - 1)) else 0
        minv := listMin s
        maxv := listMax s
        sum := s.sum
        median := quantile s (1/2)
        q1 := q1
        q3 := q3
        iqr := iqr
        whisker_lo := max (listMin s) (q1 - 3/2 * iqr)
        whisker_hi := min (listMax s) (q3 + 3/2 * iqr)
        skew := if 2 < s.length then some (skewQ sqrt s) else none
        kurtosis := if 3 < s.length then some (kurtQ s) else none
        z_mean := 0 }

/-- The in-place update `astats['z_mean'] = _safe(round(z, 3))` guarded by
`if bstats and astats and bstats['std'] and bstats['std'] > 0`, where
`z = (astats['mean'] - bstats['mean']) / bstats['std']`.  (In Python a
`std` of `0.0` is falsy, so the truthiness test and the `> 0` test
together amount to `std > 0`.) -/
def applyZ (bOpt aOpt : Option SeriesStats) : Option SeriesStats :=
  match bOpt, aOpt with
  | some b, some a =>
    if b.std ≠ 0 ∧ 0 < b.std then
      some { a with z_mean := roundTo 3 ((a.mean - b.mean) / b.std) }
    else some a
  | _, aOpt => aOpt

/-- Number of elements `≤ x`; `countLE l x / l.length` is the empirical
CDF of `l` at `x`. -/
def countLE (l : List ℚ) (x : ℚ) : ℕ :=
  (l.filter (fun y => y ≤ x)).length

/-- The two-sample Kolmogorov-Smirnov statistic of `scipy.stats.ks_2samp`
(two-sided): the maximum absolute difference of the two empirical CDFs,
evaluated over the pooled data points. -/
def ksStat (b a : List ℚ) : ℚ :=
  ((b ++ a).map (fun x =>
    |(countLE b x : ℚ) / (b.length : ℚ) - (countLE a x : ℚ) / (a.length : ℚ)|)).foldr max 0

/-- Inner product of scipy's `_compute_prob_outside_square`: the term
`p1(k) = prod_{j<h} (n - k h - j) / (n + k h + j + 1)`, in exact rational
arithmetic. -/
def outerSquareTerm (n h k : ℕ) : ℚ :=
  ((List.range h).map (fun j =>
    (((n : ℤ) - k * h - j : ℤ) : ℚ) / (((n : ℤ) + k * h + j + 1 : ℤ) : ℚ))).prod

/-- Scipy's `_compute_prob_outside_square(n, h)` (equal sample sizes):
iterate `P <- p1(k) * (1 - P)` for `k = floor(n/h), ..., 0` starting from
`P = 0`, and return `2 P`. -/
def probOutsideSquare (n h : ℕ) : ℚ :=
  2 * ((List.range (n / h + 1)).reverse.foldl
    (fun P k => outerSquareTerm n h k * (1 - P)) 0)

/-- Is the lattice point `(x, y)` strictly inside the band
`|x/m - y/n| < h / lcm(m, n)`, written integrally as
`|x * (n/g) - y * (m/g)| < h` with `g = gcd(m, n)`. -/
def insideBand (mg ng h : ℕ) (x y : ℕ) : Bool :=
  ((x * ng : ℤ) - (y * mg : ℤ)).natAbs < h

/-- One row of the lattice-path count: `row y` as a function of
`row (y-1)` (`prev`), where entry `x` counts monotone paths from `(0,0)`
to `(x, y)` whose every visited point is inside the band.  `prev` for
`y = 0` is the virtual seed row `1, 0, 0, ...`. -/
def bandRowUpTo (inside : ℕ → ℕ → Bool) (y : ℕ) (prev : List ℕ) : ℕ → List ℕ
  | 0 => [if inside 0 y then prev.getD 0 0 else 0]
  | x + 1 =>
    let r := bandRowUpTo inside y prev x
    r ++ [if inside (x + 1) y then r.getD x 0 + prev.getD (x + 1) 0 else 0]

/-- Rows `0, ..., y` of the in-band lattice-path count, to abscissa `m`. -/
def bandRows (inside : ℕ → ℕ → Bool) (m : ℕ) : ℕ → List ℕ
  | 0 => bandRowUpTo inside 0 (1 :: List.replicate m 0) m
  | y + 1 => bandRowUpTo inside (y + 1) (bandRows inside m y) m

/-- The probability that scipy's `_compute_prob_inside_method(m, n, g, h)`
computes (Hodges 1958): the fraction of the `C(m+n, m)` monotone lattice
paths from `(0,0)` to `(m,n)` that stay strictly inside the band
`|x/m - y/n| < h/lcm(m,n)`.  Scipy evaluates it by a normalized float
recurrence; this is the exact rational value of that recurrence. -/
def probInside (m n g h : ℕ) : ℚ :=
  let M := max m n
  let N := min m n
  let mg := M / g
  let ng := N / g
  ((bandRows (fun x y => insideBand mg ng h x y) M N).getD M 0 : ℚ)
    / (Nat.choose (M + N) M : ℚ)

/-- The p-value of `scipy.stats.ks_2samp(..., method='auto')`: for
samples of at most `MAX_AUTO_N = 10000` points the exact two-sided
p-value (with `h = round(d * lcm)`; `h = 0` gives `1.0` outright; equal
sample sizes use the outside-square formula, unequal ones one minus the
inside-band path fraction), otherwise the asymptotic survival function at
`(d, round(n1*n2/(n1+n2)))`; the result is clipped to `[0, 1]`. -/
def ksPvalue (O : FloatOracles) (b a : List ℚ) : ℚ :=
  let n1 := b.length
  let n2 := a.length
  let d := ksStat b a
  if max n1 n2 ≤ 10000 then
    let g := Nat.gcd n1 n2
    let lcm := (n1 / g) * n2
    let h := (roundHE (d * (lcm : ℚ))).toNat
    if h = 0 then 1
    else
      let p := if n1 = n2 then probOutsideSquare n1 h else 1 - probInside n1 n2 g h
      max 0 (min 1 p)
  else
    let en := ((n1 * n2 : ℕ) : ℚ) / ((n1 + n2 : ℕ) : ℚ)
    max 0 (min 1 (O.asympSf d (roundHE en)))

/-- First histogram edge of `np.histogram_bin_edges` with automatic
range: the data minimum, shifted down by `0.5` when the range is
degenerate (`numpy`'s `_get_outer_edges`), and `0` for empty data. -/
def binLo (vals : List ℚ) : ℚ :=
  if vals.isEmpty then 0
  else if listMin vals = listMax vals then listMin vals - 1/2 else listMin vals

/-- Last histogram edge: the data maximum, shifted up by `0.5` when the
range is degenerate, and `1` for empty data. -/
def binHi (vals : List ℚ) : ℚ :=
  if vals.isEmpty then 1
  else if listMin vals = listMax vals then listMax vals + 1/2 else listMax vals

/-- Model of `np.histogram_bin_edges(vals, bins=k)` with automatic range: `k + 1`
equally spaced edges from `binLo` to `binHi`. -/
def binEdges (vals : List ℚ) (k : ℕ) : List ℚ :=
  (List.range (k + 1)).map
    (fun i : ℕ => binLo vals + (binHi vals - binLo vals) * (i : ℚ) / (k : ℚ))

/-- Model of `np.histogram(vals, bins=edges)` counts: bin `i` is the half-open
interval `[e_i, e_{i+1})`, except the last bin, which also includes its
right edge. -/
def histCounts (vals edges : List ℚ) : List ℕ :=
  let nb := edges.length - 1
  (List.range nb).map (fun i =>
    let e1 := edges.getD i 0
    let e2 := edges.getD (i + 1) 0
    if i + 1 = nb then (vals.filter (fun x => e1 ≤ x ∧ x ≤ e2)).length
    else (vals.filter (fun x => e1 ≤ x ∧ x < e2)).length)

/-- The PSI computation of `get_analytics_stats`: 10 bins over the
concatenated samples, additive smoothing `1e-6` per bin count and
`1e-6 * 10` per total, and `psi = sum (ap - bp) * log(ap / bp)`.  The
source wraps this in `try/except` with `psi_val = None` on failure; in
the exact model (finite inputs, non-empty by the `>= 5` gate) no
library exception can occur, so the result is always `some`. -/
def psiCalc (log : ℚ → ℚ) (b a : List ℚ) : Option ℚ :=
  let edges := binEdges (b ++ a) 10
  let bh := histCounts b edges
  let ah := histCounts a edges
  let bp := List.map (fun c : ℕ => ((c : ℚ) + 1/1000000) / ((bh.sum : ℚ) + 10/1000000)) bh
  let ap := List.map (fun c : ℕ => ((c : ℚ) + 1/1000000) / ((ah.sum : ℚ) + 10/1000000)) ah
  some (((ap.zip bp).map (fun pq => (pq.1 - pq.2) * log (pq.1 / pq.2))).sum)

/-- The per-column `DriftResult`. -/
structure DriftResult where
  ks_statistic : Option ℚ
  ks_pvalue : Option ℚ
  psi : Option ℚ
  drifted : Bool
  deriving DecidableEq, Repr

/-- The drift block of `get_analytics_stats`: when both partitions have
at least 5 valid values, run `ks_2samp` and the PSI computation and set
`drifted = (ks_pval < 0.05)`; otherwise return the all-null/false
result. -/
def detectDrift (O : FloatOracles) (b a : List ℚ) : DriftResult :=
  if 5 ≤ b.length ∧ 5 ≤ a.length then
    let p := ksPvalue O b a
    { ks_statistic := some (ksStat b a)
      ks_pvalue := some p
      psi := psiCalc O.log b a
      drifted := decide (p < 1/20) }
  else
    { ks_statistic := none, ks_pvalue := none, psi := none, drifted := false }

/-- The histogram block: 20-bin midpoint labels (rounded to 2 decimals)
plus per-partition integer counts. -/
structure HistBlock where
  labels : List ℚ
  before : List ℕ
  after : List ℕ
  deriving DecidableEq, Repr

/-- The histogram block of `get_analytics_stats`: `None` when the column
has no valid value at all; otherwise 20 bins over the min/max of all the
column's valid values, both partitions counted against those shared
edges, an empty partition contributing `np.zeros(20)`, and labels the bin
midpoints rounded to 2 decimals. -/
def histogramBlock (allVals bVals aVals : List ℚ) : Option HistBlock :=
  if 0 < allVals.length then
    let edges := binEdges allVals 20
    let bh := if 0 < bVals.length then histCounts bVals edges else List.replicate 20 0
    let ah := if 0 < aVals.length then histCounts aVals edges else List.replicate 20 0
    let mids := (List.range (edges.length - 1)).map
      (fun i => (edges.getD i 0 + edges.getD (i + 1) 0) / 2)
    some { labels := mids.map (roundTo 2), before := bh, after := ah }
  else none

/-- The time-series block: sampled timestamps (the source formats them as
strings; the model keeps the timestamp itself), rounded rolling-mean
values, and the window size. -/
structure TsBlock where
  dates : List ℚ
  values : List ℚ
  window : ℕ
  deriving DecidableEq, Repr

/-- Model of `df[['event_timestamp', col]].dropna()`: the valid (timestamp, value)
pairs, i.e. rows where both the timestamp and the feature value are
present. -/
def tsPairs (df : List Rec) : List (ℚ × ℚ) :=
  df.filterMap (fun r =>
    match r.ts, r.value with
    | some t, some v => some (t, v)
    | _, _ => none)

/-- Model of `sort_values('event_timestamp')`, modelled as a stable sort on the
timestamp component. -/
def sortPairs (l : List (ℚ × ℚ)) : List (ℚ × ℚ) :=
  List.insertionSort (fun p q => p.1 ≤ q.1) l

/-- Model of `rolling(window=w, min_periods=1).mean()` at index `i`: the mean of
the values at indices `max(0, i - w + 1), ..., i` (the first windows are
partially filled). -/
def rollingMean (vs : List ℚ) (w i : ℕ) : ℚ :=
  let seg := (vs.take (i + 1)).drop (i + 1 - w)
  seg.sum / (seg.length : ℚ)

/-- The time-series block of `get_analytics_stats`: `None` when the
column has fewer than 20 valid values; otherwise sort the valid
(timestamp, value) pairs by timestamp, take the rolling mean with window
`max(10, N // 20)` and `min_periods=1` over the `N` pairs, and keep every
`max(1, N // 100)`-th point (`iloc[::step]`), values rounded to 3
decimals. -/
def timeseriesBlock (df : List Rec) : Option TsBlock :=
  if 20 ≤ (allValsOf df).length then
    let pairs := sortPairs (tsPairs df)
    let n := pairs.length
    let window := max 10 (n / 20)
    let step := max 1 (n / 100)
    let idxs := (List.range n).filter (fun i => i % step = 0)
    some
      { dates := idxs.map (fun i => (pairs.getD i (0, 0)).1)
        values := idxs.map (fun i => roundTo 3 (rollingMean (pairs.map Prod.snd) window i))
        window := window }
  else none

/-- The assembled per-column result of `get_analytics_stats`. -/
structure ColumnResult where
  overall : Option SeriesStats
  before : Option SeriesStats
  after : Option SeriesStats
  drift : DriftResult
  histogram : Option HistBlock
  timeseries : Option TsBlock

/-- The per-column computation of `get_analytics_stats` on the (already
category-filtered) dataset: partition, statistics for all three views,
the `z_mean` overwrite on the comparison block, drift, histogram and
time series. -/
def columnResult (O : FloatOracles) (df : List Rec) (m : SplitMode) : ColumnResult :=
  let bVals := beforeVals df m
  let aVals := afterVals df m
  let allVals := allValsOf df
  let bstats := _series_stats O.sqrt bVals
  let astats := applyZ bstats (_series_stats O.sqrt aVals)
  { overall := _series_stats O.sqrt allVals
    before := bstats
    after := astats
    drift := detectDrift O bVals aVals
    histogram := histogramBlock allVals bVals aVals
    timeseries := timeseriesBlock df }

/-! ### JSON-safety model

For the sanitization invariant the value domain is the full float domain:
an `EF` is a finite value, a `NaN` or a signed infinity.  The response is
modelled as the JSON tree the Flask `jsonify` serializer receives, in
which a non-finite float CAN occur (Python's serializer would emit it as
a literal `NaN`/`Infinity` token); the theorems show the assembled
response never contains one, whatever floats the numeric stages
produced. -/

/-- A float: finite rational, `NaN`, or a signed infinity. -/
inductive EF where
  | fin (q : ℚ)
  | nan
  | pinf
  | ninf
  deriving DecidableEq, Repr

/-- Finiteness test (`math.isnan or math.isinf` negated). -/
def EF.isFinite : EF → Bool
  | .fin _ => true
  | _ => false

/-- The finite value, if any. -/
def EF.toQ : EF → Option ℚ
  | .fin q => some q
  | _ => none

/-- A JSON value as handed to the serializer.  `jnum` carries a raw float
(`EF`), so an unsanitized `NaN`/`Infinity` is representable here. -/
inductive JVal where
  | jnull
  | jnum (v : EF)
  | jint (n : ℤ)
  | jbool (b : Bool)
  | jstr (s : String)
  | jarr (xs : List JVal)
  | jobj (fs : List (String × JVal))

mutual

/-- JSON safety: every `jnum` anywhere in the tree is finite. -/
def jsonSafe : JVal → Bool
  | .jnull => true
  | .jnum v => v.isFinite
  | .jint _ => true
  | .jbool _ => true
  | .jstr _ => true
  | .jarr xs => jsonSafeList xs
  | .jobj fs => jsonSafeObj fs

/-- JSON safety of a list of values. -/
def jsonSafeList : List JVal → Bool
  | [] => true
  | x :: xs => jsonSafe x && jsonSafeList xs

/-- JSON safety of the field list of an object. -/
def jsonSafeObj : List (String × JVal) → Bool
  | [] => true
  | f :: fs => jsonSafe f.2 && jsonSafeObj fs

end

/-- Model of `_safe(val)` as a JSON emitter: `None` (i.e. `null`) for `NaN` and
the infinities, the value itself otherwise. -/
def _safe : EF → JVal
  | .fin q => .jnum (.fin q)
  | _ => .jnull

/-- Model of `round(x, k)` on a float: `NaN` and infinities propagate, finite
values round to `k` decimals. -/
def roundE (k : ℕ) : EF → EF
  | .fin q => .fin (roundTo k q)
  | e => e

/-- An `Option` float emitted through `_safe` (`None` stays `null`). -/
def optSafe : Option EF → JVal
  | none => .jnull
  | some v => _safe v

/-- The floats a `_series_stats` block feeds into the response, left
arbitrary: whatever `mean`, `std`, quantiles etc. evaluated to, including
possible `NaN`/`Infinity` from degenerate input.  `zOver` is the value
`z` of the `z_mean` overwrite when it fired. -/
structure StatsInternal where
  count : ℕ
  mean : EF
  std : EF
  minv : EF
  maxv : EF
  sum : EF
  median : EF
  q1 : EF
  q3 : EF
  iqr : EF
  whisker_lo : EF
  whisker_hi : EF
  skew : Option EF
  kurtosis : Option EF
  zOver : Option EF

/-- The JSON object built from one `_series_stats` dict: every float
field goes through `_safe`; `count` is an `int`; `z_mean` is the literal
`0.0` unless overwritten with `_safe(round(z, 3))`. -/
def statsJson : Option StatsInternal → JVal
  | none => .jnull
  | some s =>
    .jobj
      [("count", .jint s.count), ("mean", _safe s.mean), ("std", _safe s.std),
       ("min", _safe s.minv), ("max", _safe s.maxv), ("sum", _safe s.sum),
       ("median", _safe s.median), ("q1", _safe s.q1), ("q3", _safe s.q3),
       ("iqr", _safe s.iqr), ("whisker_lo", _safe s.whisker_lo),
       ("whisker_hi", _safe s.whisker_hi), ("skew", optSafe s.skew),
       ("kurtosis", optSafe s.kurtosis),
       ("z_mean", match s.zOver with
         | none => .jnum (.fin 0)
         | some z => _safe (roundE 3 z))]

/-- The drift dict: in the gated (`< 5` valid values) case all fields are
the literal nulls and `False`; otherwise the KS fields go through
`_safe`, `psi` is `None` or a `_safe`d float, and `drifted` is a bool. -/
def driftJson (gate : Bool) (ks pv : EF) (psiRaw : Option EF) (dr : Bool) : JVal :=
  if gate then
    .jobj [("ks_statistic", _safe ks), ("ks_pvalue", _safe pv),
           ("psi", optSafe psiRaw), ("drifted", .jbool dr)]
  else
    .jobj [("ks_statistic", .jnull), ("ks_pvalue", .jnull),
           ("psi", .jnull), ("drifted", .jbool false)]

/-- Model of `np.histogram_bin_edges` with the finiteness check of its
`_get_outer_edges` helper: if any value is `NaN` or infinite the call
raises `ValueError` (modelled as `Except.error`), which the source's
outer `try` turns into a whole-response error; otherwise the edges are
finite. -/
def binEdgesChecked (vals : List EF) (k : ℕ) : Except Unit (List ℚ) :=
  if vals.all EF.isFinite then .ok (binEdges (vals.filterMap EF.toQ) k)
  else .error ()

/-- The histogram dict from checked (hence finite) edges: the labels are
the bin midpoints rounded to 2 decimals and emitted as raw numbers (the
source does NOT pass them through `_safe`), and the counts are ints. -/
def histJson (edges : List ℚ) (bc ac : List ℤ) : JVal :=
  let mids := (List.range (edges.length - 1)).map
    (fun i => (edges.getD i 0 + edges.getD (i + 1) 0) / 2)
  .jobj [("labels", .jarr (mids.map (fun m => .jnum (.fin (roundTo 2 m))))),
         ("before", .jarr (bc.map .jint)), ("after", .jarr (ac.map .jint))]

/-- The time-series dict internals: formatted date strings, the raw
rolling-mean floats, the window and the split label. -/
structure TsInternal where
  dates : List String
  rollVals : List EF
  window : ℕ
  splitDate : String

/-- The time-series dict: values go through `_safe(round(v, 3))`. -/
def tsJson : Option TsInternal → JVal
  | none => .jnull
  | some t =>
    .jobj [("dates", .jarr (t.dates.map .jstr)),
           ("values", .jarr (t.rollVals.map (fun v => _safe (roundE 3 v)))),
           ("window", .jint t.window), ("split_date", .jstr t.splitDate)]

/-- Everything one feature column contributes to the response, with all
internally produced floats left arbitrary. -/
structure ColumnInternal where
  overall : Option StatsInternal
  before : Option StatsInternal
  after : Option StatsInternal
  driftGate : Bool
  ks : EF
  pv : EF
  psiRaw : Option EF
  drifted : Bool
  histAll : List EF
  bCounts : List ℤ
  aCounts : List ℤ
  ts : Option TsInternal

/-- One feature column's JSON object; the histogram step can abort the
whole response when the bin-edge finiteness check raises (the exception
propagates to the route's outer handler). -/
def columnJson (c : ColumnInternal) : Except Unit JVal :=
  match (if 0 < c.histAll.length then
      (binEdgesChecked c.histAll 20).map (fun edges => histJson edges c.bCounts c.aCounts)
    else .ok .jnull) with
  | .error e => .error e
  | .ok hist =>
    .ok (.jobj
      [("overall", statsJson c.overall), ("before", statsJson c.before),
       ("after", statsJson c.after),
       ("drift", driftJson c.driftGate c.ks c.pv c.psiRaw c.drifted),
       ("histogram", hist), ("timeseries", tsJson c.ts)])

/-- The dataset-level metadata of the response. -/
structure MetaInternal where
  totalRows : ℕ
  beforeCount : ℕ
  afterCount : ℕ
  splitLabel : String
  tsMin : Option String
  tsMax : Option String
  uniqueDates : List String

/-- The `features` mapping, column name to column object; a per-column
exception aborts the whole mapping. -/
def featuresJson : List (String × ColumnInternal) → Except Unit (List (String × JVal))
  | [] => .ok []
  | (name, c) :: rest =>
    match columnJson c with
    | .error e => .error e
    | .ok j =>
      match featuresJson rest with
      | .error e => .error e
      | .ok r => .ok ((name, j) :: r)

/-- The whole analytics response as handed to `jsonify`: counts are
ints, labels and dates are strings (or `null` for an absent date
bound). -/
def responseJson (meta : MetaInternal) (cols : List (String × ColumnInternal)) :
    Except Unit JVal :=
  match featuresJson cols with
  | .error e => .error e
  | .ok feats =>
    .ok (.jobj
    [("total_rows", .jint meta.totalRows), ("before_count", .jint meta.beforeCount),
     ("after_count", .jint meta.afterCount), ("split_label", .jstr meta.splitLabel),
     ("has_dates", .jbool true),
     ("date_range", .jobj
       [("min", match meta.tsMin with | none => .jnull | some s => .jstr s),
        ("max", match meta.tsMax with | none => .jnull | some s => .jstr s),
        ("unique_dates", .jarr (meta.uniqueDates.map .jstr))]),
     ("features", .jobj feats)])

/-! ### Helper lemmas -/

/-- Number of records with a valid (non-`NaT`) timestamp. -/
def validCount (df : List Rec) : ℕ :=
  (df.filter (fun r => r.ts.isSome)).length

theorem not_tsLE_and_tsGT (r : Rec) (t : ℚ) : ¬(tsLE r t = true ∧ tsGT r t = true) := by
  rintro ⟨h1, h2⟩
  cases h : r.ts with
  | none => simp [tsLE, h] at h1
  | some u =>
    simp [tsLE, h] at h1
    simp [tsGT, h] at h2
    exact absurd h1 (not_le.mpr h2)

theorem tsLE_add_tsGT_count (t : ℚ) (l : List Rec) :
    (l.filter (fun r => tsLE r t)).length + (l.filter (fun r => tsGT r t)).length
      = (l.filter (fun r => r.ts.isSome)).length := by
  induction l with
  | nil => simp
  | cons x xs ih =>
    cases h : x.ts with
    | none =>
      have h1 : tsLE x t = false := by simp [tsLE, h]
      have h2 : tsGT x t = false := by simp [tsGT, h]
      have h3 : x.ts.isSome = false := by simp [h]
      simp only [List.filter_cons, h1, h2, h3, Bool.false_eq_true, if_false]
      exact ih
    | some u =>
      have h3 : x.ts.isSome = true := by simp [h]
      rcases le_or_lt u t with hle | hlt
      · have h1 : tsLE x t = true := by simp [tsLE, h]; exact hle
        have h2 : tsGT x t = false := by simp [tsGT, h, not_lt]; exact hle
        simp only [List.filter_cons, h1, h2, h3, Bool.false_eq_true, if_true, if_false,
          List.length_cons]
        omega
      · have h1 : tsLE x t = false := by simp [tsLE, h, not_le]; exact hlt
        have h2 : tsGT x t = true := by simp [tsGT, h]; exact hlt
        simp only [List.filter_cons, h1, h2, h3, Bool.false_eq_true, if_true, if_false,
          List.length_cons]
        omega

theorem length_filter_enumFrom {α : Type} (P : α → Bool) :
    ∀ (l : List α) (n : ℕ),
      ((l.enumFrom n).filter (fun p => P p.2)).length = (l.filter P).length := by
  intro l
  induction l with
  | nil => intro n; rfl
  | cons x xs ih =>
    intro n
    simp only [List.enumFrom, List.filter_cons]
    cases P x <;> simp [ih]

theorem mem_enumFrom_fst_le {α : Type} :
    ∀ (l : List α) (n : ℕ) (p : ℕ × α), p ∈ l.enumFrom n → n ≤ p.1 := by
  intro l
  induction l with
  | nil => intro n p h; simp at h
  | cons x xs ih =>
    intro n p h
    simp only [List.enumFrom, List.mem_cons] at h
    rcases h with h | h
    · subst h; exact le_refl n
    · exact Nat.le_of_succ_le (ih (n + 1) p h)

theorem mem_take_enumFrom_fst_lt {α : Type} :
    ∀ (l : List α) (n k : ℕ) (p : ℕ × α), p ∈ (l.enumFrom n).take k → p.1 < n + k := by
  intro l
  induction l with
  | nil => intro n k p h; simp at h
  | cons x xs ih =>
    intro n k p h
    cases k with
    | zero => simp at h
    | succ k =>
      simp only [List.enumFrom, List.take_succ_cons, List.mem_cons] at h
      rcases h with h | h
      · subst h; omega
      · have := ih (n + 1) k p h; omega

theorem mem_drop_enumFrom_fst_ge {α : Type} :
    ∀ (l : List α) (n k : ℕ) (p : ℕ × α), p ∈ (l.enumFrom n).drop k → n + k ≤ p.1 := by
  intro l
  induction l with
  | nil => intro n k p h; simp at h
  | cons x xs ih =>
    intro n k p h
    cases k with
    | zero =>
      simpa using mem_enumFrom_fst_le (x :: xs) n p h
    | succ k =>
      simp only [List.enumFrom, List.drop_succ_cons] at h
      have := ih (n + 1) k p h; omega

theorem length_filter_tsLE_enum (l : List Rec) (t : ℚ) :
    ((l.enum).filter (fun p => tsLE p.2 t)).length = (l.filter (fun r => tsLE r t)).length :=
  length_filter_enumFrom (fun r => tsLE r t) l 0

theorem length_filter_tsGT_enum (l : List Rec) (t : ℚ) :
    ((l.enum).filter (fun p => tsGT p.2 t)).length = (l.filter (fun r => tsGT r t)).length :=
  length_filter_enumFrom (fun r => tsGT r t) l 0

theorem partition_length_sum (df : List Rec) (m : SplitMode) :
    (partition df m).1.length + (partition df m).2.length =
      match m with
      | .cutoff _ => validCount df
      | .auto => if 1 < (uniqueTs df).length then validCount df else df.length := by
  cases m with
  | cutoff c =>
    simp only [partition]
    rw [length_filter_tsLE_enum, length_filter_tsGT_enum]
    exact tsLE_add_tsGT_count _ df
  | auto =>
    by_cases hu : 1 < (uniqueTs df).length
    · simp only [partition, if_pos hu]
      rw [length_filter_tsLE_enum, length_filter_tsGT_enum]
      exact tsLE_add_tsGT_count _ df
    · simp only [partition, if_neg hu]
      rw [List.length_take, List.length_drop, List.enum_length]
      omega

/-! ### C1: partition completeness -/

/-- C1 (amended).  The reference and comparison partitions are always
disjoint, and if the filtered dataset is empty both are empty.  The
record counts add up to the number of records with a valid timestamp
under the explicit-cutoff and earliest-batch rules — hence to the full
dataset size whenever every record's timestamp is valid — and always add
up to the full dataset size under the positional fallback.  (The original
claim, full completeness for every dataset under every rule, fails when a
record's timestamp is `NaT`: see the counterexample.) -/
theorem c1_partition_completeness (df : List Rec) (m : SplitMode) :
    (∀ p, p ∈ (partition df m).1 → p ∉ (partition df m).2) ∧
    ((partition df m).1.length + (partition df m).2.length =
      match m with
      | .cutoff _ => validCount df
      | .auto => if 1 < (uniqueTs df).length then validCount df else df.length) ∧
    ((∀ r ∈ df, r.ts.isSome) →
      (partition df m).1.length + (partition df m).2.length = df.length) ∧
    (df = [] → (partition df m).1 = [] ∧ (partition df m).2 = []) := by
  have hvc : (∀ r ∈ df, r.ts.isSome) → validCount df = df.length := by
    intro hall
    unfold validCount
    rw [List.filter_eq_self.mpr hall]
  have hsum := partition_length_sum df m
  refine ⟨?_, hsum, ?_, ?_⟩
  · intro p h1 h2
    cases m with
    | cutoff c =>
      simp only [partition] at h1 h2
      exact not_tsLE_and_tsGT p.2 _ ⟨(List.mem_filter.mp h1).2, (List.mem_filter.mp h2).2⟩
    | auto =>
      by_cases hu : 1 < (uniqueTs df).length
      · simp only [partition, if_pos hu] at h1 h2
        exact not_tsLE_and_tsGT p.2 _ ⟨(List.mem_filter.mp h1).2, (List.mem_filter.mp h2).2⟩
      · simp only [partition, if_neg hu] at h1 h2
        have ha := mem_take_enumFrom_fst_lt df 0 (4 * df.length / 5) p h1
        have hb := mem_drop_enumFrom_fst_ge df 0 (4 * df.length / 5) p h2
        omega
  · intro hall
    rw [hsum]
    cases m with
    | cutoff c => exact hvc hall
    | auto =>
      by_cases hu : 1 < (uniqueTs df).length
      · rw [if_pos hu]; exact hvc hall
      · rw [if_neg hu]
  · rintro rfl
    cases m with
    | cutoff c => exact ⟨rfl, rfl⟩
    | auto => exact ⟨rfl, rfl⟩

/-- Dataset for the C1 counterexample: two distinct valid timestamps plus
one `NaT` record, no cutoff. -/
def dfC1 : List Rec :=
  [⟨some 0, some 1, none⟩, ⟨some 1, some 2, none⟩, ⟨none, some 3, none⟩]

/-- C1 counterexample.  On a three-record dataset with two distinct
timestamps and one missing timestamp, the earliest-batch rule applies and
the `NaT` record lands in neither partition, so the partition sizes sum
to 2, not 3: the claim `len(reference) + len(comparison) ==
len(filtered_dataset)` is false as stated. -/
theorem c1_counterexample :
    (partition dfC1 .auto).1.length + (partition dfC1 .auto).2.length ≠ dfC1.length := by
  decide

/-- Dataset for the C1 witness: all timestamps valid, one on each side of
the cutoff day. -/
def dfC1v : List Rec :=
  [⟨some 0, some 1, none⟩, ⟨some 100000, some 2, none⟩]

/-- C1 witness: on a dataset whose timestamps are all valid, the
explicit-cutoff rule partitions completely (sizes 1 + 1 = 2). -/
theorem c1_witness :
    (partition dfC1v (.cutoff 0)).1.length + (partition dfC1v (.cutoff 0)).2.length
      = dfC1v.length :=
  (c1_partition_completeness dfC1v (.cutoff 0)).2.2.1 (by decide)

/-! ### C9: positional fallback -/

theorem uniqueTs_le_one (df : List Rec)
    (hsh : ∀ r₁ ∈ df, ∀ r₂ ∈ df, ∀ t₁ t₂, r₁.ts = some t₁ → r₂.ts = some t₂ → t₁ = t₂) :
    ¬ 1 < (uniqueTs df).length := by
  intro h
  have hnd : (uniqueTs df).Nodup := List.nodup_dedup _
  rcases hq : uniqueTs df with _ | ⟨a, _ | ⟨b, rest⟩⟩
  · rw [hq] at h; simp at h
  · rw [hq] at h; simp at h
  · rw [hq] at hnd
    have hab : a ≠ b := by
      intro he
      exact (List.nodup_cons.mp hnd).1 (he ▸ List.mem_cons_self b rest)
    have ha' : a ∈ uniqueTs df := by rw [hq]; exact List.mem_cons_self _ _
    have hb' : b ∈ uniqueTs df := by
      rw [hq]; exact List.mem_cons_of_mem _ (List.mem_cons_self _ _)
    have ha : a ∈ validTs df := List.mem_dedup.mp ha'
    have hb : b ∈ validTs df := List.mem_dedup.mp hb'
    obtain ⟨r₁, hr₁, e₁⟩ := List.mem_filterMap.mp ha
    obtain ⟨r₂, hr₂, e₂⟩ := List.mem_filterMap.mp hb
    exact hab (hsh r₁ hr₁ r₂ hr₂ a b e₁ e₂)

/-- C9 (confirmed).  On a non-empty dataset in which all valid
timestamps coincide (including the case where no record has a valid
timestamp) and with no cutoff supplied, the reference partition is
exactly the first `int(0.8 * N) = 4N/5` records in original order and
the comparison partition is the rest. -/
theorem c9_positional_fallback (df : List Rec) (_hne : df ≠ [])
    (hsh : ∀ r₁ ∈ df, ∀ r₂ ∈ df, ∀ t₁ t₂, r₁.ts = some t₁ → r₂.ts = some t₂ → t₁ = t₂) :
    (partition df .auto).1 = df.enum.take (4 * df.length / 5) ∧
    (partition df .auto).2 = df.enum.drop (4 * df.length / 5) ∧
    (partition df .auto).1.map Prod.snd = df.take (4 * df.length / 5) ∧
    (partition df .auto).2.map Prod.snd = df.drop (4 * df.length / 5) := by
  have hle := uniqueTs_le_one df hsh
  refine ⟨?_, ?_, ?_, ?_⟩
  · simp [partition, if_neg hle]
  · simp [partition, if_neg hle]
  · simp only [partition, if_neg hle]
    rw [List.map_take, List.enum_map_snd]
  · simp only [partition, if_neg hle]
    rw [List.map_drop, List.enum_map_snd]

/-- Dataset for the C9 witness: five records, a single shared
timestamp. -/
def dfC9 : List Rec :=
  [⟨some 7, some 10, none⟩, ⟨some 7, some 11, none⟩, ⟨some 7, some 12, none⟩,
   ⟨some 7, some 13, none⟩, ⟨some 7, some 14, none⟩]

/-- C9 witness: with five records sharing one timestamp the reference is
the first `floor(0.8 * 5) = 4` records and the comparison the last. -/
theorem c9_witness :
    (partition dfC9 .auto).1.map Prod.snd = dfC9.take 4 := by
  have hsh : ∀ r₁ ∈ dfC9, ∀ r₂ ∈ dfC9, ∀ t₁ t₂,
      r₁.ts = some t₁ → r₂.ts = some t₂ → t₁ = t₂ := by
    intro r₁ h₁ r₂ h₂ t₁ t₂ e₁ e₂
    have g₁ : r₁.ts = some 7 := by fin_cases h₁ <;> rfl
    have g₂ : r₂.ts = some 7 := by fin_cases h₂ <;> rfl
    rw [g₁] at e₁; rw [g₂] at e₂
    cases e₁; cases e₂; rfl
  exact (c9_positional_fallback dfC9 (by decide) hsh).2.2.1

/-! ### C10: missing-timestamp exclusion -/

/-- C10 (confirmed).  Under the explicit-cutoff rule and the
earliest-batch rule a record with a missing timestamp belongs to neither
partition; under the positional fallback every record belongs to exactly
one; consequently, on a dataset with more than one distinct valid
timestamp and at least one missing timestamp, `before_count +
after_count` is strictly less than `total_rows` under both available
rules. -/
theorem c10_missing_timestamp_exclusion (df : List Rec) :
    (∀ c p, p.2.ts = none →
      p ∉ (partition df (.cutoff c)).1 ∧ p ∉ (partition df (.cutoff c)).2) ∧
    (1 < (uniqueTs df).length → ∀ p, p.2.ts = none →
      p ∉ (partition df .auto).1 ∧ p ∉ (partition df .auto).2) ∧
    (¬ 1 < (uniqueTs df).length → ∀ p ∈ df.enum,
      (p ∈ (partition df .auto).1 ∧ p ∉ (partition df .auto).2) ∨
      (p ∉ (partition df .auto).1 ∧ p ∈ (partition df .auto).2)) ∧
    (1 < (uniqueTs df).length → (∃ r ∈ df, r.ts = none) →
      ∀ m, (partition df m).1.length + (partition df m).2.length < df.length) := by
  refine ⟨?_, ?_, ?_, ?_⟩
  · intro c p hnone
    have hLE : tsLE p.2 (c + 86400 - 1) = false := by simp [tsLE, hnone]
    have hGT : tsGT p.2 (c + 86400 - 1) = false := by simp [tsGT, hnone]
    constructor
    · intro hmem
      simp only [partition] at hmem
      have := (List.mem_filter.mp hmem).2
      rw [hLE] at this; cases this
    · intro hmem
      simp only [partition] at hmem
      have := (List.mem_filter.mp hmem).2
      rw [hGT] at this; cases this
  · intro hu p hnone
    have hLE : tsLE p.2 (listMin (validTs df)) = false := by simp [tsLE, hnone]
    have hGT : tsGT p.2 (listMin (validTs df)) = false := by simp [tsGT, hnone]
    constructor
    · intro hmem
      simp only [partition, if_pos hu] at hmem
      have := (List.mem_filter.mp hmem).2
      rw [hLE] at this; cases this
    · intro hmem
      simp only [partition, if_pos hu] at hmem
      have := (List.mem_filter.mp hmem).2
      rw [hGT] at this; cases this
  · intro hu p hp
    simp only [partition, if_neg hu]
    have hsplit := List.take_append_drop (4 * df.length / 5) df.enum
    rw [← hsplit] at hp
    rcases List.mem_append.mp hp with h | h
    · left
      refine ⟨h, ?_⟩
      intro h2
      have ha := mem_take_enumFrom_fst_lt df 0 (4 * df.length / 5) p h
      have hb := mem_drop_enumFrom_fst_ge df 0 (4 * df.length / 5) p h2
      omega
    · right
      refine ⟨?_, h⟩
      intro h2
      have ha := mem_take_enumFrom_fst_lt df 0 (4 * df.length / 5) p h2
      have hb := mem_drop_enumFrom_fst_ge df 0 (4 * df.length / 5) p h
      omega
  · intro hu hex m
    have hlt : validCount df < df.length := by
      obtain ⟨r, hr, hn⟩ := hex
      unfold validCount
      refine List.length_filter_lt_length_iff_exists.mpr ⟨r, hr, ?_⟩
      simp [hn]
    rw [partition_length_sum df m]
    cases m with
    | cutoff c => exact hlt
    | auto => rw [if_pos hu]; exact hlt

/-- Dataset for the C10 witness: two distinct valid timestamps plus one
`NaT` record. -/
def dfC10 : List Rec :=
  [⟨some 0, some 1, none⟩, ⟨some 1, some 2, none⟩, ⟨none, some 3, none⟩]

/-- C10 witness: on the three-record dataset with a missing timestamp,
the earliest-batch rule yields partitions whose sizes sum to less than
the dataset size. -/
theorem c10_witness :
    (partition dfC10 .auto).1.length + (partition dfC10 .auto).2.length < dfC10.length :=
  (c10_missing_timestamp_exclusion dfC10).2.2.2 (by decide) (by decide) .auto

/-! ### C4: z_mean assignment -/

theorem seriesStats_z_mean_zero (sq : ℚ → ℚ) (s : List ℚ) (st : SeriesStats)
    (h : _series_stats sq s = some st) : st.z_mean = 0 := by
  unfold _series_stats at h
  by_cases h0 : s.length = 0
  · rw [if_pos h0] at h; cases h
  · rw [if_neg h0] at h
    cases h; rfl

theorem applyZ_none_left (a : Option SeriesStats) : applyZ none a = a := by
  cases a <;> rfl

/-- C4 (amended).  The overall and reference statistics blocks always
carry `z_mean = 0.0`.  When both partitions have at least one valid value
(so both statistics blocks exist) and the reference standard deviation is
positive, the comparison block's `z_mean` is overwritten with
`(comparison.mean - reference.mean) / reference.std` ROUNDED TO 3 DECIMAL
PLACES (ties to even); otherwise the comparison block keeps
`z_mean = 0.0`.  (The original claim omits the rounding: see the
counterexample.) -/
theorem c4_z_mean_assignment (O : FloatOracles) (df : List Rec) (m : SplitMode) :
    (∀ st, (columnResult O df m).overall = some st → st.z_mean = 0) ∧
    (∀ st, (columnResult O df m).before = some st → st.z_mean = 0) ∧
    (∀ bs as₀, _series_stats O.sqrt (beforeVals df m) = some bs →
      _series_stats O.sqrt (afterVals df m) = some as₀ →
      ((0 < bs.std →
        (columnResult O df m).after =
          some { as₀ with z_mean := roundTo 3 ((as₀.mean - bs.mean) / bs.std) }) ∧
       (¬ 0 < bs.std → (columnResult O df m).after = some as₀ ∧ as₀.z_mean = 0))) ∧
    ((_series_stats O.sqrt (beforeVals df m) = none ∨
        _series_stats O.sqrt (afterVals df m) = none) →
      (columnResult O df m).after = _series_stats O.sqrt (afterVals df m)) := by
  refine ⟨?_, ?_, ?_, ?_⟩
  · intro st h
    simp only [columnResult] at h
    exact seriesStats_z_mean_zero O.sqrt _ st h
  · intro st h
    simp only [columnResult] at h
    exact seriesStats_z_mean_zero O.sqrt _ st h
  · intro bs as₀ hb ha
    constructor
    · intro hstd
      simp only [columnResult, hb, ha, applyZ]
      rw [if_pos ⟨ne_of_gt hstd, hstd⟩]
    · intro hn
      simp only [columnResult, hb, ha, applyZ]
      rw [if_neg (fun hc : bs.std ≠ 0 ∧ 0 < bs.std => hn hc.2)]
      exact ⟨rfl, seriesStats_z_mean_zero O.sqrt _ as₀ ha⟩
  · intro hor
    simp only [columnResult]
    rcases hor with h | h
    · rw [h, applyZ_none_left]
    · rw [h]
      cases hbo : _series_stats O.sqrt (beforeVals df m) <;> rfl

/-- Dataset for the C4 counterexample: degenerate timestamps force the
positional 80/20 split, reference values `[0, 1, 2]` (mean 1, sample std
1), comparison value `[1/16]`. -/
def dfC4c : List Rec :=
  [⟨none, some 0, none⟩, ⟨none, some 1, none⟩, ⟨none, some 2, none⟩,
   ⟨none, some (mkRat 1 16), none⟩]

/-- C4 counterexample.  With reference `[0, 1, 2]` (mean 1, std 1) and
comparison `[1/16]`, the claim says `z_mean = (1/16 - 1) / 1 = -15/16 =
-0.9375`; the code stores `round(-0.9375, 3) = -0.938 = -469/500`
instead, so the claimed equality fails. -/
theorem c4_counterexample :
    (_series_stats qOracles.sqrt (beforeVals dfC4c .auto)).map SeriesStats.std = some 1 ∧
    (_series_stats qOracles.sqrt (beforeVals dfC4c .auto)).map SeriesStats.mean = some 1 ∧
    (_series_stats qOracles.sqrt (afterVals dfC4c .auto)).map SeriesStats.mean
      = some (1/16) ∧
    (columnResult qOracles dfC4c .auto).after.map SeriesStats.z_mean
      = some (-469/500) ∧
    (-469/500 : ℚ) ≠ ((1/16 : ℚ) - 1) / 1 := by
  have hbv : beforeVals dfC4c .auto = [0, 1, 2] := by decide
  have hav : afterVals dfC4c .auto = [mkRat 1 16] := by decide
  have hb : _series_stats qOracles.sqrt [0, 1, 2] =
      some { count := 3, mean := 1, std := 1, minv := 0, maxv := 2, sum := 3,
             median := 1, q1 := 1/2, q3 := 3/2, iqr := 1, whisker_lo := 0,
             whisker_hi := 2, skew := some 0, kurtosis := none, z_mean := 0 } := by
    norm_num [_series_stats, quantile, sortedVals, List.insertionSort, List.orderedInsert,
      meanQ, sumSqDev, skewQ, centralMoment, listMin, listMax, qOracles, qsqrt]
  have ha : _series_stats qOracles.sqrt [mkRat 1 16] =
      some { count := 1, mean := 1/16, std := 0, minv := 1/16, maxv := 1/16,
             sum := 1/16, median := 1/16, q1 := 1/16, q3 := 1/16, iqr := 0,
             whisker_lo := 1/16, whisker_hi := 1/16, skew := none, kurtosis := none,
             z_mean := 0 } := by
    norm_num [_series_stats, quantile, sortedVals, List.insertionSort, List.orderedInsert,
      meanQ, listMin, listMax, Rat.mkRat_eq_div]
  refine ⟨?_, ?_, ?_, ?_, by norm_num⟩
  · rw [hbv, hb]; rfl
  · rw [hbv, hb]; rfl
  · rw [hav, ha]; rfl
  · simp only [columnResult, hbv, hav, hb, ha, applyZ]
    rw [if_pos ⟨by norm_num, by norm_num⟩]
    simp only [Option.map_some']
    norm_num [roundTo, roundHE]

/-- Dataset for the C4 witness: reference `[0, 1, 2]`, comparison
`[1/2]` — here `z = -0.5` is exact at 3 decimals. -/
def dfC4w : List Rec :=
  [⟨none, some 0, none⟩, ⟨none, some 1, none⟩, ⟨none, some 2, none⟩,
   ⟨none, some (mkRat 1 2), none⟩]

/-- C4 witness: the amended rule at a concrete input — the comparison
block's `z_mean` is the rounded standardized mean shift. -/
theorem c4_witness :
    (columnResult qOracles dfC4w .auto).after.map SeriesStats.z_mean
      = some (roundTo 3 (((1 : ℚ)/2 - 1) / 1)) := by
  have hbv : beforeVals dfC4w .auto = [0, 1, 2] := by decide
  have hav : afterVals dfC4w .auto = [mkRat 1 2] := by decide
  have hb : _series_stats qOracles.sqrt (beforeVals dfC4w .auto) =
      some { count := 3, mean := 1, std := 1, minv := 0, maxv := 2, sum := 3,
             median := 1, q1 := 1/2, q3 := 3/2, iqr := 1, whisker_lo := 0,
             whisker_hi := 2, skew := some 0, kurtosis := none, z_mean := 0 } := by
    rw [hbv]
    norm_num [_series_stats, quantile, sortedVals, List.insertionSort, List.orderedInsert,
      meanQ, sumSqDev, skewQ, centralMoment, listMin, listMax, qOracles, qsqrt]
  have ha : _series_stats qOracles.sqrt (afterVals dfC4w .auto) =
      some { count := 1, mean := 1/2, std := 0, minv := 1/2, maxv := 1/2,
             sum := 1/2, median := 1/2, q1 := 1/2, q3 := 1/2, iqr := 0,
             whisker_lo := 1/2, whisker_hi := 1/2, skew := none, kurtosis := none,
             z_mean := 0 } := by
    rw [hav]
    norm_num [_series_stats, quantile, sortedVals, List.insertionSort, List.orderedInsert,
      meanQ, listMin, listMax, Rat.mkRat_eq_div]
  have h := ((c4_z_mean_assignment qOracles dfC4w .auto).2.2.1 _ _ hb ha).1 (by norm_num)
  rw [h]
  rfl

/-! ### C3: drift gating -/

/-- C3 (confirmed).  With fewer than 5 valid values in either partition
the drift result is all-null with `drifted = False`; with at least 5 in
both, the KS statistic and p-value are non-null and `drifted` holds
exactly when the p-value is below `0.05`. -/
theorem c3_drift_gating (O : FloatOracles) (b a : List ℚ) :
    ((b.length < 5 ∨ a.length < 5) →
      detectDrift O b a =
        { ks_statistic := none, ks_pvalue := none, psi := none, drifted := false }) ∧
    (5 ≤ b.length → 5 ≤ a.length →
      (detectDrift O b a).ks_statistic = some (ksStat b a) ∧
      (detectDrift O b a).ks_pvalue = some (ksPvalue O b a) ∧
      ((detectDrift O b a).drifted = true ↔ ksPvalue O b a < 1/20)) := by
  constructor
  · intro hlt
    unfold detectDrift
    rw [if_neg (by omega : ¬(5 ≤ b.length ∧ 5 ≤ a.length))]
  · intro h1 h2
    unfold detectDrift
    rw [if_pos ⟨h1, h2⟩]
    exact ⟨rfl, rfl, by simp⟩

/-- C3 witness: the spec's own example — 3 reference values against 10
comparison values gate to the all-null result; 5 against 5 produce
non-null KS fields with `drifted` tied to the p-value threshold. -/
theorem c3_witness :
    detectDrift qOracles [0, 1, 2] [0, 1, 2, 3, 4, 5, 6, 7, 8, 9]
      = { ks_statistic := none, ks_pvalue := none, psi := none, drifted := false } ∧
    (detectDrift qOracles [0, 1, 2, 3, 4] [0, 2, 4, 6, 8]).ks_statistic
      = some (ksStat [0, 1, 2, 3, 4] [0, 2, 4, 6, 8]) ∧
    ((detectDrift qOracles [0, 1, 2, 3, 4] [0, 2, 4, 6, 8]).drifted = true
      ↔ ksPvalue qOracles [0, 1, 2, 3, 4] [0, 2, 4, 6, 8] < 1/20) :=
  ⟨(c3_drift_gating qOracles _ _).1 (Or.inl (by decide)),
   ((c3_drift_gating qOracles _ _).2 (by decide) (by decide)).1,
   ((c3_drift_gating qOracles _ _).2 (by decide) (by decide)).2.2⟩

/-! ### C5: drift identity on equal partitions -/

theorem foldr_max_zero (l : List ℚ) (h : ∀ x ∈ l, x = 0) : l.foldr max 0 = 0 := by
  induction l with
  | nil => rfl
  | cons x xs ih =>
    simp only [List.foldr_cons]
    rw [h x (List.mem_cons_self x xs), ih (fun y hy => h y (List.mem_cons_of_mem x hy))]
    simp

theorem countLE_perm {b a : List ℚ} (h : b.Perm a) (x : ℚ) :
    countLE b x = countLE a x :=
  (h.filter (fun y => y ≤ x)).length_eq

theorem ksStat_eq_zero_of_perm {b a : List ℚ} (h : b.Perm a) : ksStat b a = 0 := by
  unfold ksStat
  apply foldr_max_zero
  intro v hv
  obtain ⟨x, _, rfl⟩ := List.mem_map.mp hv
  rw [countLE_perm h x, h.length_eq, sub_self, abs_zero]

theorem roundHE_zero : roundHE 0 = 0 := by
  norm_num [roundHE]

theorem histCounts_perm {b a : List ℚ} (h : b.Perm a) (edges : List ℚ) :
    histCounts b edges = histCounts a edges := by
  unfold histCounts
  apply List.map_congr_left
  intro i _
  by_cases hi : i + 1 = edges.length - 1
  · rw [if_pos hi, if_pos hi, (h.filter _).length_eq]
  · rw [if_neg hi, if_neg hi, (h.filter _).length_eq]

theorem zip_self_psi_sum (log : ℚ → ℚ) (l : List ℚ) :
    ((l.zip l).map (fun pq => (pq.1 - pq.2) * log (pq.1 / pq.2))).sum = 0 := by
  induction l with
  | nil => rfl
  | cons x xs ih =>
    simp only [List.zip_cons_cons, List.map_cons, List.sum_cons, ih, sub_self, zero_mul,
      add_zero]

theorem psiCalc_of_perm (log : ℚ → ℚ) {b a : List ℚ} (h : b.Perm a) :
    psiCalc log b a = some 0 := by
  simp only [psiCalc]
  rw [(histCounts_perm h (binEdges (b ++ a) 10)).symm]
  exact congrArg some (zip_self_psi_sum log _)

theorem ksPvalue_eq_one_of_stat_zero (O : FloatOracles) (b a : List ℚ)
    (hd : ksStat b a = 0) (hsf : ∀ k, O.asympSf 0 k = 1) : ksPvalue O b a = 1 := by
  simp only [ksPvalue, hd]
  by_cases hmax : max b.length a.length ≤ 10000
  · rw [if_pos hmax]
    simp [roundHE_zero]
  · rw [if_neg hmax, hsf]
    norm_num

/-- C5 (confirmed).  When the two partitions hold the same multiset of at
least 5 valid values, the KS statistic is exactly `0`, the p-value is
exactly `1`, the PSI is exactly `0` (for any modelling of `np.log`), and
`drifted` is false.  The hypothesis on `asympSf` is the true property
`sf(0) = 1` of the survival function it models, needed only for samples
past the exact-method cutoff. -/
theorem c5_identical_partitions (O : FloatOracles) (b a : List ℚ)
    (hperm : b.Perm a) (hlen : 5 ≤ b.length) (hsf : ∀ k, O.asympSf 0 k = 1) :
    (detectDrift O b a).psi = some 0 ∧
    (detectDrift O b a).ks_pvalue = some 1 ∧
    (detectDrift O b a).drifted = false := by
  have hgate : 5 ≤ b.length ∧ 5 ≤ a.length := ⟨hlen, hperm.length_eq ▸ hlen⟩
  have hp1 : ksPvalue O b a = 1 :=
    ksPvalue_eq_one_of_stat_zero O b a (ksStat_eq_zero_of_perm hperm) hsf
  unfold detectDrift
  rw [if_pos hgate]
  refine ⟨psiCalc_of_perm O.log hperm, congrArg some hp1, ?_⟩
  rw [hp1]
  norm_num

/-- C5 witness: two permuted 5-value partitions at concrete inputs. -/
theorem c5_witness :
    (detectDrift qOracles [0, 1, 2, 3, 4] [4, 3, 2, 1, 0]).psi = some 0 ∧
    (detectDrift qOracles [0, 1, 2, 3, 4] [4, 3, 2, 1, 0]).ks_pvalue = some 1 ∧
    (detectDrift qOracles [0, 1, 2, 3, 4] [4, 3, 2, 1, 0]).drifted = false :=
  c5_identical_partitions qOracles _ _ (by decide) (by decide)
    (fun k => by simp [qOracles])

/-! ### C6: histogram contract -/

theorem getD_map_range (f : ℕ → ℚ) (n i : ℕ) (hi : i < n) :
    ((List.range n).map f).getD i 0 = f i := by
  rw [List.getD_eq_getElem?_getD, List.getElem?_map, List.getElem?_range hi]
  rfl

theorem binEdges_length (vals : List ℚ) (k : ℕ) : (binEdges vals k).length = k + 1 := by
  rw [binEdges, List.length_map, List.length_range]

theorem binEdges_getD (vals : List ℚ) (k i : ℕ) (hi : i < k + 1) :
    (binEdges vals k).getD i 0
      = binLo vals + (binHi vals - binLo vals) * (i : ℚ) / (k : ℚ) := by
  unfold binEdges
  exact getD_map_range _ _ _ hi

theorem histCounts_length (vals edges : List ℚ) :
    (histCounts vals edges).length = edges.length - 1 := by
  simp [histCounts]

theorem binLo_le_listMin (vals : List ℚ) (h : vals ≠ []) : binLo vals ≤ listMin vals := by
  unfold binLo
  rw [if_neg (by simpa using h)]
  by_cases hd : listMin vals = listMax vals
  · rw [if_pos hd]; linarith
  · rw [if_neg hd]

theorem listMax_le_binHi (vals : List ℚ) (h : vals ≠ []) : listMax vals ≤ binHi vals := by
  unfold binHi
  rw [if_neg (by simpa using h)]
  by_cases hd : listMin vals = listMax vals
  · rw [if_pos hd]; linarith
  · rw [if_neg hd]

/-- C6 (confirmed).  The histogram block is null exactly when the column
has no valid value; otherwise it has 20 equal-width bins whose edges
cover the min/max of all valid values (and coincide with them when the
range is non-degenerate), labels are bin midpoints rounded to 2 decimals,
and both partitions are counted against those same shared edges, an
empty partition yielding 20 zero counts. -/
theorem c6_histogram_contract (allVals bVals aVals : List ℚ) :
    (histogramBlock allVals bVals aVals = none ↔ allVals = []) ∧
    (∀ hb, histogramBlock allVals bVals aVals = some hb →
      hb.labels.length = 20 ∧ hb.before.length = 20 ∧ hb.after.length = 20 ∧
      (binEdges allVals 20).length = 21 ∧
      (∀ i, i < 20 →
        (binEdges allVals 20).getD (i + 1) 0 - (binEdges allVals 20).getD i 0
          = ((binEdges allVals 20).getD 20 0 - (binEdges allVals 20).getD 0 0) / 20) ∧
      (binEdges allVals 20).getD 0 0 ≤ listMin allVals ∧
      listMax allVals ≤ (binEdges allVals 20).getD 20 0 ∧
      (listMin allVals < listMax allVals →
        (binEdges allVals 20).getD 0 0 = listMin allVals ∧
        (binEdges allVals 20).getD 20 0 = listMax allVals) ∧
      (∀ i, i < 20 → hb.labels.getD i 0 =
        roundTo 2 (((binEdges allVals 20).getD i 0
          + (binEdges allVals 20).getD (i + 1) 0) / 2)) ∧
      (bVals = [] → hb.before = List.replicate 20 0) ∧
      (bVals ≠ [] → hb.before = histCounts bVals (binEdges allVals 20)) ∧
      (aVals = [] → hb.after = List.replicate 20 0) ∧
      (aVals ≠ [] → hb.after = histCounts aVals (binEdges allVals 20))) := by
  constructor
  · constructor
    · intro hnone
      by_contra hne
      unfold histogramBlock at hnone
      rw [if_pos (List.length_pos.mpr hne)] at hnone
      cases hnone
    · intro he
      subst he
      rfl
  · intro hb h
    have hne : allVals ≠ [] := by
      intro he
      subst he
      cases h
    unfold histogramBlock at h
    rw [if_pos (List.length_pos.mpr hne)] at h
    injection h with h'
    subst h'
    have hE0 : (binEdges allVals 20).getD 0 0 = binLo allVals := by
      rw [binEdges_getD allVals 20 0 (by omega)]
      push_cast
      ring
    have hE20 : (binEdges allVals 20).getD 20 0 = binHi allVals := by
      rw [binEdges_getD allVals 20 20 (by omega)]
      push_cast
      ring
    refine ⟨?_, ?_, ?_, binEdges_length allVals 20, ?_, ?_, ?_, ?_, ?_, ?_, ?_, ?_, ?_⟩
    · simp [binEdges_length]
    · by_cases hbv : 0 < bVals.length
      · rw [if_pos hbv, histCounts_length, binEdges_length]
      · rw [if_neg hbv, List.length_replicate]
    · by_cases hav : 0 < aVals.length
      · rw [if_pos hav, histCounts_length, binEdges_length]
      · rw [if_neg hav, List.length_replicate]
    · intro i hi
      rw [binEdges_getD allVals 20 (i + 1) (by omega), binEdges_getD allVals 20 i (by omega),
        hE20, hE0]
      push_cast
      ring
    · rw [hE0]
      exact binLo_le_listMin allVals hne
    · rw [hE20]
      exact listMax_le_binHi allVals hne
    · intro hlt
      have hd : listMin allVals ≠ listMax allVals := ne_of_lt hlt
      have hia : allVals.isEmpty = false := by simpa using hne
      rw [hE0, hE20]
      unfold binLo binHi
      rw [hia]
      rw [if_neg hd, if_neg hd]
      exact ⟨rfl, rfl⟩
    · intro i hi
      have hlen : (binEdges allVals 20).length - 1 = 20 := by
        rw [binEdges_length]
      rw [hlen, List.map_map]
      exact getD_map_range _ 20 i hi
    · intro he
      subst he
      rfl
    · intro hne'
      rw [if_pos (List.length_pos.mpr hne')]
    · intro he
      subst he
      rfl
    · intro hne'
      rw [if_pos (List.length_pos.mpr hne')]

/-- C6 witness: the null case on an empty column, and on column values
`[0, 20]` with reference `[0]` and empty comparison a 20-label histogram
whose comparison counts are 20 zeros. -/
theorem c6_witness :
    histogramBlock [] [] [] = none ∧
    (histogramBlock [0, 20] [0] []).map (fun hb => hb.labels.length) = some 20 ∧
    (histogramBlock [0, 20] [0] []).map HistBlock.after = some (List.replicate 20 0) := by
  refine ⟨(c6_histogram_contract [] [] []).1.mpr rfl, ?_, ?_⟩
  · rcases ho : histogramBlock [0, 20] [0] [] with _ | hb
    · exact absurd ((c6_histogram_contract [0, 20] [0] []).1.mp ho) (by simp)
    · rw [Option.map_some']
      exact congrArg some ((c6_histogram_contract [0, 20] [0] []).2 hb ho).1
  · rcases ho : histogramBlock [0, 20] [0] [] with _ | hb
    · exact absurd ((c6_histogram_contract [0, 20] [0] []).1.mp ho) (by simp)
    · rw [Option.map_some']
      exact congrArg some
        (((c6_histogram_contract [0, 20] [0] []).2 hb ho).2.2.2.2.2.2.2.2.2.2.2.1 rfl)

/-! ### C7: time-series contract -/

theorem range_filter_mod (s : ℕ) (hs : 0 < s) :
    ∀ N : ℕ, (List.range N).filter (fun i => i % s = 0)
      = (List.range ((N + s - 1) / s)).map (fun j : ℕ => j * s) := by
  intro N
  induction N with
  | zero =>
    rw [Nat.div_eq_of_lt (by omega)]
    rfl
  | succ N ih =>
    obtain ⟨q, r, hqr, hrlt⟩ : ∃ q r, N = s * q + r ∧ r < s :=
      ⟨N / s, N % s, (Nat.div_add_mod N s).symm, Nat.mod_lt _ hs⟩
    have hmul : s * (q + 1) = s * q + s := by ring
    have hmod : N % s = r := by
      rw [hqr, Nat.mul_add_mod, Nat.mod_eq_of_lt hrlt]
    rw [List.range_succ, List.filter_append, ih]
    by_cases hm : r = 0
    · have hK1 : (N + 1 + s - 1) / s = q + 1 := by
        rw [show N + 1 + s - 1 = s * (q + 1) + 0 by omega, Nat.mul_add_div hs,
          Nat.zero_div, Nat.add_zero]
      have hK0 : (N + s - 1) / s = q := by
        rw [show N + s - 1 = s * q + (s - 1) by omega, Nat.mul_add_div hs,
          Nat.div_eq_of_lt (by omega), Nat.add_zero]
      rw [hK0, hK1, List.range_succ, List.map_append]
      have hmm : N % s = 0 := by omega
      have hN : q * s = N := by rw [Nat.mul_comm]; omega
      simp [List.filter_cons, hmm, hN]
    · have hK1 : (N + 1 + s - 1) / s = q + 1 := by
        rw [show N + 1 + s - 1 = s * (q + 1) + r by omega, Nat.mul_add_div hs,
          Nat.div_eq_of_lt hrlt, Nat.add_zero]
      have hK0 : (N + s - 1) / s = q + 1 := by
        rw [show N + s - 1 = s * (q + 1) + (r - 1) by omega, Nat.mul_add_div hs,
          Nat.div_eq_of_lt (by omega), Nat.add_zero]
      rw [hK0, hK1]
      have hmm : ¬ N % s = 0 := by omega
      simp [List.filter_cons, hmm]

theorem sortPairs_length (l : List (ℚ × ℚ)) : (sortPairs l).length = l.length := by
  unfold sortPairs
  exact List.length_insertionSort _ _

/-- C7 (confirmed).  The time-series block is null exactly when the
column has fewer than 20 valid values.  Otherwise, with `N` the number of
valid (timestamp, value) pairs and `step = max(1, N // 100)`: the window
is `max(10, N // 20)`; the emitted values are the 3-decimal-rounded
rolling means (minimum period 1,窗 witnessed by the window segment having
`min(window, i+1)` points at index `i`) of the time-sorted values, taken
at indices `0, step, 2*step, ...` in order; the dates are the timestamps
at those same indices; and the underlying pair list is sorted by
timestamp. -/
theorem c7_timeseries_contract (df : List Rec) :
    (timeseriesBlock df = none ↔ (allValsOf df).length < 20) ∧
    (∀ tb, timeseriesBlock df = some tb →
      tb.window = max 10 ((tsPairs df).length / 20) ∧
      tb.values = (List.range
          (((tsPairs df).length + max 1 ((tsPairs df).length / 100) - 1)
            / max 1 ((tsPairs df).length / 100))).map
        (fun j : ℕ => roundTo 3 (rollingMean ((sortPairs (tsPairs df)).map Prod.snd)
          (max 10 ((tsPairs df).length / 20)) (j * max 1 ((tsPairs df).length / 100)))) ∧
      tb.dates = (List.range
          (((tsPairs df).length + max 1 ((tsPairs df).length / 100) - 1)
            / max 1 ((tsPairs df).length / 100))).map
        (fun j : ℕ => ((sortPairs (tsPairs df)).getD
          (j * max 1 ((tsPairs df).length / 100)) (0, 0)).1) ∧
      (∀ i, i < (tsPairs df).length →
        ((((sortPairs (tsPairs df)).map Prod.snd).take (i + 1)).drop
          (i + 1 - tb.window)).length = min tb.window (i + 1)) ∧
      List.Pairwise (fun p q : ℚ × ℚ => p.1 ≤ q.1) (sortPairs (tsPairs df))) := by
  constructor
  · constructor
    · intro hnone
      by_contra hge
      unfold timeseriesBlock at hnone
      rw [if_pos (by omega)] at hnone
      cases hnone
    · intro hlt
      unfold timeseriesBlock
      rw [if_neg (by omega)]
  · intro tb h
    have hge : 20 ≤ (allValsOf df).length := by
      by_contra hlt
      unfold timeseriesBlock at h
      rw [if_neg hlt] at h
      cases h
    unfold timeseriesBlock at h
    rw [if_pos hge] at h
    injection h with h'
    subst h'
    have hstep : 0 < max 1 ((sortPairs (tsPairs df)).length / 100) := by omega
    refine ⟨?_, ?_, ?_, ?_, ?_⟩
    · dsimp only
      rw [sortPairs_length]
    · dsimp only
      rw [range_filter_mod _ hstep, List.map_map, sortPairs_length]
      rfl
    · dsimp only
      rw [range_filter_mod _ hstep, List.map_map, sortPairs_length]
      rfl
    · intro i hi
      rw [List.length_drop, List.length_take, List.length_map, sortPairs_length]
      omega
    · haveI : IsTotal (ℚ × ℚ) (fun p q => p.1 ≤ q.1) := ⟨fun a b => le_total a.1 b.1⟩
      haveI : IsTrans (ℚ × ℚ) (fun p q => p.1 ≤ q.1) :=
        ⟨fun _ _ _ hab hbc => le_trans hab hbc⟩
      exact List.sorted_insertionSort _ _

/-- Dataset for the C7 witness: 20 records with increasing timestamps. -/
def dfC7 : List Rec :=
  (List.range 20).map (fun i : ℕ => ⟨some (i : ℚ), some (i : ℚ), none⟩)

/-- C7 witness: 19 valid values give a null time series; 20 valid values
give a trend with window `max(10, 20 // 20) = 10`. -/
theorem c7_witness :
    timeseriesBlock (dfC7.take 19) = none ∧
    (timeseriesBlock dfC7).map TsBlock.window = some 10 := by
  constructor
  · exact (c7_timeseries_contract (dfC7.take 19)).1.mpr (by decide)
  · rcases ho : timeseriesBlock dfC7 with _ | tb
    · exact absurd ((c7_timeseries_contract dfC7).1.mp ho) (by decide)
    · have hw := ((c7_timeseries_contract dfC7).2 tb ho).1
      rw [Option.map_some', hw,
        show (tsPairs dfC7).length = 20 from by decide]
      rfl

/-! ### C8: statistics edge thresholds -/

/-- C8 (confirmed).  `_series_stats` returns null on an empty sequence;
on a singleton it returns `std = 0.0`, `skew = null`, `kurtosis = null`;
in general `skew` is null whenever `count <= 2` and `kurtosis` is null
whenever `count <= 3`; and for `count > 1` the standard deviation is the
square root of the sample variance with the `n - 1` denominator. -/
theorem c8_stats_edge_thresholds (sq : ℚ → ℚ) :
    (_series_stats sq [] = none) ∧
    (∀ x : ℚ, ∃ st, _series_stats sq [x] = some st ∧
      st.std = 0 ∧ st.skew = none ∧ st.kurtosis = none) ∧
    (∀ s st, _series_stats sq s = some st → st.count ≤ 2 → st.skew = none) ∧
    (∀ s st, _series_stats sq s = some st → st.count ≤ 3 → st.kurtosis = none) ∧
    (∀ s st, _series_stats sq s = some st → 1 < st.count →
      st.std = sq (sumSqDev s / ((s.length : ℚ) - 1))) := by
  refine ⟨rfl, ?_, ?_, ?_, ?_⟩
  · intro x
    refine ⟨_, rfl, ?_, ?_, ?_⟩ <;> simp [_series_stats]
  · intro s st h hle
    unfold _series_stats at h
    by_cases h0 : s.length = 0
    · rw [if_pos h0] at h; cases h
    · rw [if_neg h0] at h
      cases h
      dsimp only at hle ⊢
      rw [if_neg (by omega : ¬ 2 < s.length)]
  · intro s st h hle
    unfold _series_stats at h
    by_cases h0 : s.length = 0
    · rw [if_pos h0] at h; cases h
    · rw [if_neg h0] at h
      cases h
      dsimp only at hle ⊢
      rw [if_neg (by omega : ¬ 3 < s.length)]
  · intro s st h hlt
    unfold _series_stats at h
    by_cases h0 : s.length = 0
    · rw [if_pos h0] at h; cases h
    · rw [if_neg h0] at h
      cases h
      dsimp only at hlt ⊢
      rw [if_pos (by omega : 1 < s.length)]

/-- C8 witness: the empty, singleton and pair cases at concrete inputs;
on `[0, 1, 2]` the standard deviation is `sqrt((1 + 0 + 1)/2) =
sqrt 1`. -/
theorem c8_witness :
    _series_stats qsqrt [] = none ∧
    ((_series_stats qsqrt [5]).map SeriesStats.std = some 0 ∧
     (_series_stats qsqrt [5]).map SeriesStats.skew = some none ∧
     (_series_stats qsqrt [5]).map SeriesStats.kurtosis = some none) ∧
    (_series_stats qsqrt [0, 1, 2]).map SeriesStats.std = some (qsqrt 1) := by
  have h := c8_stats_edge_thresholds qsqrt
  obtain ⟨st, hst, h1, h2, h3⟩ := h.2.1 5
  refine ⟨h.1, ⟨?_, ?_, ?_⟩, ?_⟩
  · rw [hst, Option.map_some', h1]
  · rw [hst, Option.map_some', h2]
  · rw [hst, Option.map_some', h3]
  · have hsome : _series_stats qsqrt [0, 1, 2] =
        some { count := 3, mean := 1, std := 1, minv := 0, maxv := 2, sum := 3,
               median := 1, q1 := 1/2, q3 := 3/2, iqr := 1, whisker_lo := 0,
               whisker_hi := 2, skew := some 0, kurtosis := none, z_mean := 0 } := by
      norm_num [_series_stats, quantile, sortedVals, List.insertionSort, List.orderedInsert,
        meanQ, sumSqDev, skewQ, centralMoment, listMin, listMax, qsqrt]
    have happ := h.2.2.2.2 [0, 1, 2] _ hsome (by decide)
    rw [hsome, Option.map_some']
    rw [show (qsqrt 1 : ℚ) =
      qsqrt (sumSqDev [0, 1, 2] / ((([0, 1, 2] : List ℚ).length : ℚ) - 1)) by
        norm_num [sumSqDev, meanQ]]
    rw [← happ]

/-! ### C2: JSON-safety invariant -/

theorem _safe_safe (v : EF) : jsonSafe (_safe v) = true := by
  cases v <;> rfl

theorem optSafe_safe (o : Option EF) : jsonSafe (optSafe o) = true := by
  cases o with
  | none => rfl
  | some v => exact _safe_safe v

theorem jsonSafeList_of_all (xs : List JVal) (h : ∀ x ∈ xs, jsonSafe x = true) :
    jsonSafeList xs = true := by
  induction xs with
  | nil => rfl
  | cons x xs ih =>
    rw [jsonSafeList, h x (List.mem_cons_self x xs),
      ih (fun y hy => h y (List.mem_cons_of_mem x hy))]
    rfl

theorem jsonSafeList_map_jstr (l : List String) :
    jsonSafeList (l.map JVal.jstr) = true := by
  apply jsonSafeList_of_all
  intro x hx
  obtain ⟨s, _, rfl⟩ := List.mem_map.mp hx
  rfl

theorem statsJson_safe (o : Option StatsInternal) : jsonSafe (statsJson o) = true := by
  cases o with
  | none => rfl
  | some s =>
    obtain ⟨c, mean, std, mn, mx, sm, med, q1, q3, iqr, wlo, whi, skew, kurt, z⟩ := s
    cases z with
    | none =>
      simp [statsJson, jsonSafe, jsonSafeObj, _safe_safe, optSafe_safe, EF.isFinite]
    | some zv =>
      simp [statsJson, jsonSafe, jsonSafeObj, _safe_safe, optSafe_safe, EF.isFinite]

theorem driftJson_safe (gate : Bool) (ks pv : EF) (psiRaw : Option EF) (dr : Bool) :
    jsonSafe (driftJson gate ks pv psiRaw dr) = true := by
  cases gate with
  | false => rfl
  | true =>
    simp [driftJson, jsonSafe, jsonSafeObj, _safe_safe, optSafe_safe]

theorem histJson_safe (edges : List ℚ) (bc ac : List ℤ) :
    jsonSafe (histJson edges bc ac) = true := by
  simp only [histJson, jsonSafe, jsonSafeObj]
  rw [jsonSafeList_of_all _ (fun x hx => by
        obtain ⟨m, _, rfl⟩ := List.mem_map.mp hx
        rfl),
    jsonSafeList_of_all _ (fun x hx => by
        obtain ⟨m, _, rfl⟩ := List.mem_map.mp hx
        rfl),
    jsonSafeList_of_all _ (fun x hx => by
        obtain ⟨m, _, rfl⟩ := List.mem_map.mp hx
        rfl)]
  rfl

theorem tsJson_safe (o : Option TsInternal) : jsonSafe (tsJson o) = true := by
  cases o with
  | none => rfl
  | some t =>
    simp only [tsJson, jsonSafe, jsonSafeObj]
    rw [jsonSafeList_map_jstr,
      jsonSafeList_of_all _ (fun x hx => by
        obtain ⟨v, _, rfl⟩ := List.mem_map.mp hx
        exact _safe_safe _)]
    rfl

theorem columnJson_safe (c : ColumnInternal) (j : JVal) (h : columnJson c = .ok j) :
    jsonSafe j = true := by
  unfold columnJson at h
  have hhist : ∀ hist : JVal,
      (if 0 < c.histAll.length then
        (binEdgesChecked c.histAll 20).map
          (fun edges => histJson edges c.bCounts c.aCounts)
       else .ok .jnull) = .ok hist → jsonSafe hist = true := by
    intro hist hh
    by_cases hlen : 0 < c.histAll.length
    · rw [if_pos hlen] at hh
      unfold binEdgesChecked at hh
      by_cases hfin : c.histAll.all EF.isFinite
      · rw [if_pos hfin] at hh
        injection hh with hh'
        subst hh'
        exact histJson_safe _ _ _
      · rw [if_neg hfin] at hh
        cases hh
    · rw [if_neg hlen] at hh
      injection hh with hh'
      subst hh'
      rfl
  cases hh : (if 0 < c.histAll.length then
      (binEdgesChecked c.histAll 20).map
        (fun edges => histJson edges c.bCounts c.aCounts)
    else .ok .jnull) with
  | error e =>
    rw [hh] at h
    cases h
  | ok hist =>
    rw [hh] at h
    injection h with h'
    subst h'
    simp only [jsonSafe, jsonSafeObj]
    rw [statsJson_safe, statsJson_safe, statsJson_safe, driftJson_safe,
      hhist hist hh, tsJson_safe]
    rfl

theorem featuresJson_safe :
    ∀ (cols : List (String × ColumnInternal)) (feats : List (String × JVal)),
      featuresJson cols = .ok feats → jsonSafeObj feats = true := by
  intro cols
  induction cols with
  | nil =>
    intro feats h
    injection h with h'
    subst h'
    rfl
  | cons p rest ih =>
    intro feats h
    obtain ⟨name, c⟩ := p
    unfold featuresJson at h
    cases hc : columnJson c with
    | error e => rw [hc] at h; cases h
    | ok cj =>
      rw [hc] at h
      cases hr : featuresJson rest with
      | error e => rw [hr] at h; cases h
      | ok r =>
        rw [hr] at h
        injection h with h'
        subst h'
        rw [jsonSafeObj, columnJson_safe c cj hc, ih r hr]
        rfl

/-- C2 (confirmed).  Whatever floats the numeric stages produced —
including `NaN` and infinities in any statistics field, KS field, PSI or
rolling-mean value — every numeric field of an analytics response that is
actually emitted is either a finite number or `null`: the stats, drift
and time-series floats all pass through `_safe`, the histogram labels are
computed from bin edges whose finiteness `np.histogram_bin_edges`
enforces (raising, and thereby aborting the whole response, otherwise),
and every remaining field is an int, bool, string or `null`. -/
theorem c2_json_safety (meta : MetaInternal) (cols : List (String × ColumnInternal))
    (j : JVal) (h : responseJson meta cols = .ok j) : jsonSafe j = true := by
  unfold responseJson at h
  cases hf : featuresJson cols with
  | error e => rw [hf] at h; cases h
  | ok feats =>
    rw [hf] at h
    injection h with h'
    subst h'
    obtain ⟨tr, bc, ac, sl, tmin, tmax, ud⟩ := meta
    have hfeats := featuresJson_safe cols feats hf
    cases tmin <;> cases tmax <;>
      simp [jsonSafe, jsonSafeObj, jsonSafeList_map_jstr, hfeats]

/-- Metadata for the C2 witness. -/
def metaW : MetaInternal :=
  { totalRows := 3, beforeCount := 2, afterCount := 1, splitLabel := "2024-01-01",
    tsMin := some "2024-01-01T00:00:00", tsMax := none, uniqueDates := ["2024-01-01"] }

/-- Column internals for the C2 witness: the overall stats block is full
of `NaN`/`Infinity` floats, which must all be emitted as `null`. -/
def colsW : List (String × ColumnInternal) :=
  [("Glucose",
    { overall := some
        { count := 0, mean := .nan, std := .pinf, minv := .ninf, maxv := .nan,
          sum := .nan, median := .nan, q1 := .nan, q3 := .nan, iqr := .nan,
          whisker_lo := .nan, whisker_hi := .nan, skew := some .nan,
          kurtosis := none, zOver := some .nan },
      before := none, after := none, driftGate := false, ks := .nan, pv := .nan,
      psiRaw := none, drifted := false, histAll := [], bCounts := [], aCounts := [],
      ts := none })]

/-- The JSON tree the witness response reduces to: every `NaN`/`Infinity`
internal has become `null`. -/
def jW : JVal :=
  .jobj
    [("total_rows", .jint 3), ("before_count", .jint 2), ("after_count", .jint 1),
     ("split_label", .jstr ("2024-01-01")), ("has_dates", .jbool true),
     ("date_range", .jobj
       [("min", .jstr ("2024-01-01T00:00:00")), ("max", .jnull),
        ("unique_dates", .jarr [.jstr ("2024-01-01")])]),
     ("features", .jobj
       [("Glucose", .jobj
         [("overall", .jobj
           [("count", .jint 0), ("mean", .jnull), ("std", .jnull), ("min", .jnull),
            ("max", .jnull), ("sum", .jnull), ("median", .jnull), ("q1", .jnull),
            ("q3", .jnull), ("iqr", .jnull), ("whisker_lo", .jnull),
            ("whisker_hi", .jnull), ("skew", .jnull), ("kurtosis", .jnull),
            ("z_mean", .jnull)]),
          ("before", .jnull), ("after", .jnull),
          ("drift", .jobj
            [("ks_statistic", .jnull), ("ks_pvalue", .jnull), ("psi", .jnull),
             ("drifted", .jbool false)]),
          ("histogram", .jnull), ("timeseries", .jnull)])])]

/-- C2 witness: on a concrete response whose internals are riddled with
`NaN`/`Infinity`, the assembled JSON is exactly `jW` and is JSON-safe. -/
theorem c2_witness : responseJson metaW colsW = .ok jW ∧ jsonSafe jW = true :=
  ⟨rfl, c2_json_safety metaW colsW jW rfl⟩

end MLDash
